import Mathlib

/-!
Shallow embedding of `fontTools.misc.visitor.Visitor` (Lib/fontTools/misc/visitor.py)
and `fontTools.otlLib.error.OpenTypeLibError` (Lib/fontTools/otlLib/error.py).

Python values are modelled by the inductive `PyValue`; Python classes are
identified by natural numbers.  An object carries both its instance
dictionary (`vars(obj)`) and the attributes visible on its class, so that
`getattr` can be modelled faithfully (instance dictionary first, then the
class).  Enum members (`enum.Enum` instances) are a separate constructor:
they do have an attribute dictionary, but `Visitor.visit` explicitly
excludes them from object traversal.

Handlers are modelled as pure functions from the visited object (and, for
attribute handlers, the key/value pair) to the Python value they return;
the engine only inspects that return value.  Traversal is instrumented to
produce a trace of events so that "x was (not) visited" is expressible.
-/

namespace FontToolsVisitor

/-- A Python value as traversed by the visitor.  `typ` fields are class
identifiers.  `obj` is a non-enum instance with an attribute dictionary:
`instFields` is `vars(obj)` (the instance `__dict__`, in insertion order)
and `classFields` are the attributes visible on its class.  `enumMember`
is an `enum.Enum` instance (it also has internal attributes).  `leaf` is
any other value (int, string, ...), tagged with its class id. -/
inductive PyValue where
  | obj (typ : Nat) (instFields : List (String × PyValue)) (classFields : List (String × PyValue))
  | enumMember (typ : Nat) (instFields : List (String × PyValue))
  | list (elems : List PyValue)
  | dict (entries : List (PyValue × PyValue))
  | leaf (typ : Nat) (val : Int)

/-- The class id of Python's builtin `list` type. -/
def listTypeId : Nat := 0

/-- The class id of Python's builtin `dict` type. -/
def dictTypeId : Nat := 1

/-- `type(thing)`: the exact runtime class of a value. -/
def PyValue.typeOf : PyValue → Nat
  | .obj t _ _ => t
  | .enumMember t _ => t
  | .list _ => listTypeId
  | .dict _ => dictTypeId
  | .leaf t _ => t

/-- The value returned by a user visit function: `None`, a bool, an int,
a float (Python floats are modelled as rationals, which is exact for the
values `==`-comparison against `False` cares about), or a string. -/
inductive PyRet where
  | none
  | bool (b : Bool)
  | int (n : Int)
  | float (q : Rat)
  | str (s : String)
deriving DecidableEq

/-- Python's `ret == False`.  In Python, `False` is the number `0`, and
`==` between booleans and numbers is numeric: `False == False`, `0 == False`
and `0.0 == False` are all `True`, while `None == False`, `1 == False` and
`"" == False` are `False`. -/
def pyEqFalse : PyRet → Bool
  | .none => false
  | .bool b => !b
  | .int n => n == 0
  | .float q => q == 0
  | .str _ => false

/-- A user-registered visit function.  `id` identifies the function (for
the event trace); `fn` gives the value it returns when the engine calls it
with `(self, obj, *args)` (second argument `none`) or
`(self, obj, key, value, *args)` (second argument `some (key, value)`). -/
structure Handler where
  id : Nat
  fn : PyValue → Option (String × PyValue) → PyRet

/-- One class's per-type attribute table: maps an attribute selector
(`None` for the whole-node handler, `"*"` for the wildcard, or a concrete
attribute name) to the registered visit function.  Python dicts are
modelled as association lists in insertion order. -/
abbrev AttrTable := List (Option String × Handler)

/-- One class's `_visitors` dictionary: visited type id ↦ attribute table. -/
abbrev VTable := List (Nat × AttrTable)

/-- `d.get(k)` on an association-list dictionary. -/
def alGet {κ α : Type} [BEq κ] : List (κ × α) → κ → Option α
  | [], _ => .none
  | (k, v) :: rest, key => if k == key then some v else alGet rest key

/-- `d[k] = v` on an association-list dictionary: replaces the value of an
existing key in place, otherwise appends (Python dicts keep insertion
order). -/
def alSet {κ α : Type} [BEq κ] : List (κ × α) → κ → α → List (κ × α)
  | [], key, v => [(key, v)]
  | (k, w) :: rest, key, v =>
    if k == key then (k, v) :: rest else (k, w) :: alSet rest key v

/-- The message of the `assert` in `Visitor._register`:
`f"Oops, class '{clazz.__name__}' has visitor function for '{attr}' defined already."`
(class names are identifiers here, rendered with `toString`). -/
def dupMsg (clazz : Nat) (attr : Option String) : String :=
  "Oops, class " ++ toString clazz ++ " has visitor function for "
    ++ (match attr with | .none => "None" | some s => s) ++ " defined already."

/-- The inner `for attr in attrs` loop of `Visitor._register`'s `wrapper`:
each attribute must not already be registered in this class's table for
this visited type (`assert attr not in _visitors`), then
`_visitors[attr] = method`. -/
def registerAttrList (clazz : Nat) (method : Handler) :
    AttrTable → List (Option String) → Except String AttrTable
  | tbl, [] => .ok tbl
  | tbl, attr :: rest =>
    if (alGet tbl attr).isSome then .error (dupMsg clazz attr)
    else registerAttrList clazz method (tbl ++ [(attr, method)]) rest

/-- `Visitor._register`'s `wrapper`, flattened over `(clazz, attrs)` pairs
(the source iterates `for clazzes, attrs in clazzes_attrs` and then
`for clazz in clazzes`; `register` passes attrs `(None,)`, `register_attr`
pairs every class with the given attribute names).  `table` is the defining
class's own `_visitors` dictionary (created empty if the class had none). -/
def registerPairs (method : Handler) :
    VTable → List (Nat × List (Option String)) → Except String VTable
  | table, [] => .ok table
  | table, (clazz, attrs) :: rest => do
    let base := (alGet table clazz).getD []
    let tbl ← registerAttrList clazz method base attrs
    registerPairs method (alSet table clazz tbl) rest

/-- `Visitor.register(clazzes)`: whole-node handlers, attribute selector `None`. -/
def registerNode (method : Handler) (table : VTable) (clazzes : List Nat) :
    Except String VTable :=
  registerPairs method table (clazzes.map fun c => (c, [Option.none]))

/-- `Visitor.register_attr(clazzes, attrs)`. -/
def registerAttr (method : Handler) (table : VTable) (clazzes : List Nat)
    (attrs : List String) : Except String VTable :=
  registerPairs method table (clazzes.map fun c => (c, attrs.map Option.some))

/-- One class in a visitor engine's method resolution order: its own
`__dict__["_visitors"]` entry, if `_register` ever ran in that class
(the `Visitor` base itself never has one). -/
structure ClassFrame where
  visitors : Option VTable

/-- `getattr(cls, "_visitors", None)`: Python attribute lookup on a class
walks the class's own MRO, so it returns the first `_visitors` dictionary
found at or above the given class. -/
def getattrVisitors : List ClassFrame → Option VTable
  | [] => .none
  | c :: rest =>
    match c.visitors with
    | some t => some t
    | .none => getattrVisitors rest

/-- `Visitor._visitorsFor(thing)`: walk the engine's MRO from most-derived
to least-derived; at each class look up the visited value's exact runtime
type in the `_visitors` dictionary visible from that class, returning the
first hit; a class with no `_visitors` visible at all ends the walk
(`break`); with no hit the default is the empty table `{}`. -/
def visitorsFor : List ClassFrame → Nat → AttrTable
  | [], _ => []
  | c :: rest, typ =>
    match getattrVisitors (c :: rest) with
    | .none => []
    | some tbl =>
      match alGet tbl typ with
      | some m => m
      | .none => visitorsFor rest typ

/-- A visitor engine instance: the MRO of its class (most-derived first),
and the value of the `defaultStop` class attribute. -/
structure Engine where
  mro : List ClassFrame
  defaultStop : Bool

/-- The stop test applied to a handler's return value, at both call sites:
`if ret == False or (ret is None and self.defaultStop)`. -/
def stopSignal (defaultStop : Bool) (ret : PyRet) : Bool :=
  pyEqFalse ret || (ret == PyRet.none && defaultStop)

/-- `getattr(obj, key)` for an object with instance dictionary `iF` and
class attributes `cF`: the instance dictionary takes precedence. -/
def getattrField (iF cF : List (String × PyValue)) (k : String) : Option PyValue :=
  match alGet iF k with
  | some v => some v
  | .none => alGet cF k

/-- `sorted(keys)`: stable ascending sort in Python's lexicographic string
order.  On strings, `≤` is a total antisymmetric order, so every correct
sort produces the same output list; insertion sort is used here. -/
def sortKeys (ks : List String) : List String :=
  List.insertionSort (fun a b : String => a ≤ b) ks

/-- The privacy test of `Visitor.visitObject`: `key[0] == "_"`.  (Python
would raise `IndexError` on an empty attribute name; attribute names are
never empty, and the model treats an empty name as public.) -/
def isPrivateKey (k : String) : Bool :=
  match k.data with
  | [] => false
  | c :: _ => c == '_'

/-- The trace of a traversal: one `enter` per call to `visit`, one
`callNode`/`callAttr` per invocation of a registered visit function, and
one `leafVisit` per call to the default `visitLeaf` hook (which itself
does nothing). -/
inductive Event where
  | enter (v : PyValue)
  | callNode (id : Nat) (typ : Nat)
  | callAttr (id : Nat) (key : String)
  | leafVisit (v : PyValue)

/-- `sizeOf` bound for association-list lookups, used for termination. -/
theorem sizeOf_alGet {κ α : Type} [BEq κ] [SizeOf κ] [SizeOf α] :
    ∀ (l : List (κ × α)) (k : κ) (v : α), alGet l k = some v → sizeOf v < sizeOf l := by
  intro l
  induction l with
  | nil => intro k v h; simp [alGet] at h
  | cons p rest ih =>
    intro k v h
    obtain ⟨k', v'⟩ := p
    simp only [alGet] at h
    by_cases hk : (k' == k) = true
    · rw [if_pos hk] at h
      cases h
      simp
      omega
    · rw [if_neg hk] at h
      have := ih k v h
      simp
      omega

/-- `sizeOf` bound for `getattr`, used for termination. -/
theorem sizeOf_getattrField (iF cF : List (String × PyValue)) (k : String)
    (v : PyValue) (h : getattrField iF cF k = some v) :
    sizeOf v < sizeOf iF + sizeOf cF := by
  unfold getattrField at h
  cases hif : alGet iF k with
  | some w =>
    rw [hif] at h
    cases h
    have := sizeOf_alGet iF k _ hif
    omega
  | none =>
    rw [hif] at h
    have := sizeOf_alGet cF k v h
    omega

mutual

/-- `Visitor.visit(obj, *args)`: look up the whole-node handler (selector
`None`) for the value's exact runtime type; if present, call it and apply
the stop test (`return` on stop); then dispatch on the value's shape. -/
def visit (e : Engine) (v : PyValue) : List Event :=
  Event.enter v ::
    match alGet (visitorsFor e.mro v.typeOf) Option.none with
    | some h =>
      if stopSignal e.defaultStop (h.fn v Option.none)
      then [Event.callNode h.id v.typeOf]
      else Event.callNode h.id v.typeOf :: dispatchShape e v
    | Option.none => dispatchShape e v
termination_by (sizeOf v, 1, 0)
decreasing_by
  all_goals exact Prod.Lex.right _ (Prod.Lex.left _ _ (by omega))

/-- The shape dispatch at the end of `Visitor.visit`:
`hasattr(obj, "__dict__") and not isinstance(obj, enum.Enum)` →
`visitObject`; `elif isinstance(obj, list)` → `visitList`;
`elif isinstance(obj, dict)` → `visitDict`; `else` → `visitLeaf`.
Enum members have a `__dict__` but fail the first test and are not lists
or dicts, so they reach `visitLeaf`. -/
def dispatchShape (e : Engine) (v : PyValue) : List Event :=
  match v with
  | .obj typ iF cF => visitFields e typ iF cF (sortKeys (iF.map Prod.fst))
  | .enumMember typ fields => [Event.leafVisit (.enumMember typ fields)]
  | .list elems => visitElems e elems
  | .dict entries => visitVals e entries
  | .leaf typ val => [Event.leafVisit (.leaf typ val)]
termination_by (sizeOf v, 0, 0)
decreasing_by
  all_goals apply Prod.Lex.left
  all_goals simp

/-- The `for key in keys` loop of `Visitor.visitObject`, where
`keys = sorted(vars(obj).keys())`. -/
def visitFields (e : Engine) (typ : Nat) (iF cF : List (String × PyValue))
    (keys : List String) : List Event :=
  match keys with
  | [] => []
  | k :: rest => visitField e typ iF cF k ++ visitFields e typ iF cF rest
termination_by (sizeOf iF + sizeOf cF, 2, keys.length)
decreasing_by
  · exact Prod.Lex.right _ (Prod.Lex.left _ _ (by omega))
  · exact Prod.Lex.right _ (Prod.Lex.right _ (by simp))

/-- One iteration of the `Visitor.visitObject` loop, for key `k`:
skip private keys (`if key[0] == "_": continue`); fetch
`value = getattr(obj, key)`; resolve the attribute handler
(`_visitors.get(key, defaultVisitor)` where
`defaultVisitor = _visitors.get("*")`); if one exists, call it and apply
the stop test (`continue` on stop); otherwise fall through to
`visitAttr`, whose default implementation is `self.visit(value)`. -/
def visitField (e : Engine) (typ : Nat) (iF cF : List (String × PyValue))
    (k : String) : List Event :=
  if isPrivateKey k then []
  else
    match hv : getattrField iF cF k with
    | Option.none => []
    | some value =>
      match (alGet (visitorsFor e.mro typ) (some k)).orElse
          (fun _ => alGet (visitorsFor e.mro typ) (some "*")) with
      | some h =>
        if stopSignal e.defaultStop (h.fn (.obj typ iF cF) (some (k, value)))
        then [Event.callAttr h.id k]
        else Event.callAttr h.id k :: visit e value
      | Option.none => visit e value
termination_by (sizeOf iF + sizeOf cF, 1, 0)
decreasing_by
  all_goals exact Prod.Lex.left _ _ (sizeOf_getattrField iF cF k value hv)

/-- `Visitor.visitList`: visit each element in order. -/
def visitElems (e : Engine) : List PyValue → List Event
  | [] => []
  | x :: xs => visit e x ++ visitElems e xs
termination_by l => (sizeOf l, 0, 0)
decreasing_by
  all_goals apply Prod.Lex.left
  all_goals simp
  all_goals omega

/-- `Visitor.visitDict`: visit each value (`obj.values()`), never the
keys, in the dictionary's iteration order. -/
def visitVals (e : Engine) : List (PyValue × PyValue) → List Event
  | [] => []
  | (_, val) :: rest => visit e val ++ visitVals e rest
termination_by l => (sizeOf l, 0, 0)
decreasing_by
  all_goals apply Prod.Lex.left
  all_goals simp
  all_goals omega

end

/-- Lib/fontTools/otlLib/error.py: `OpenTypeLibError(Exception)`, constructed
from a message and a location; `Exception.__init__(self, message)` stores the
message, `self.location = location` stores the location.  The location may be
`None` (modelled as `Option.none`). -/
structure OpenTypeLibError where
  message : String
  location : Option String

/-- Python truthiness of an optional string: `None` and `""` are falsy,
any non-empty string is truthy. -/
def pyTruthy : Option String → Bool
  | Option.none => false
  | some s => !(s == "")

/-- `OpenTypeLibError.__str__`:
`return f"{self.location}: {message}" if self.location else message`. -/
def OpenTypeLibError.str (e : OpenTypeLibError) : String :=
  if pyTruthy e.location then (e.location.getD "") ++ ": " ++ e.message
  else e.message

/-! Concrete fixtures: a handful of handlers, registration tables and engines
used to instantiate the theorems below on concrete inputs. -/

/-- A visit function that returns `False`. -/
def hFalse : Handler := ⟨1, fun _ _ => PyRet.bool false⟩

/-- A visit function that returns `None` (no explicit signal). -/
def hNone : Handler := ⟨2, fun _ _ => PyRet.none⟩

/-- A visit function that returns the integer `0`. -/
def hZero : Handler := ⟨3, fun _ _ => PyRet.int 0⟩

/-- A visit function that returns the float `0.0`. -/
def hFloatZero : Handler := ⟨4, fun _ _ => PyRet.float 0⟩

/-- A visit function that returns `True`. -/
def hTrue : Handler := ⟨5, fun _ _ => PyRet.bool true⟩

/-- A `_visitors` table registering: a whole-node `False` handler for type 10,
a field handler for field `"x"` of type 11, a whole-node `None` handler for
type 12, whole-node `0` / `0.0` handlers for types 13 and 14, and a wildcard
field handler for type 15. -/
def tblW : VTable :=
  [(10, [(Option.none, hFalse)]),
   (11, [(some "x", hFalse)]),
   (12, [(Option.none, hNone)]),
   (13, [(Option.none, hZero)]),
   (14, [(Option.none, hFloatZero)]),
   (15, [(some "*", hZero)])]

/-- An engine whose class registered `tblW`, with `defaultStop = False`. -/
def engW : Engine := ⟨[⟨some tblW⟩, ⟨Option.none⟩], false⟩

/-- The same engine class with `defaultStop = True`. -/
def engWs : Engine := ⟨[⟨some tblW⟩, ⟨Option.none⟩], true⟩

/-- An engine of a subclass `B` of the class that registered `tblW`:
`B` itself registered nothing. -/
def engB : Engine := ⟨[⟨Option.none⟩, ⟨some tblW⟩, ⟨Option.none⟩], false⟩

/-! Unfolding lemmas for the well-founded mutual definitions. -/

/-- Unfolding of `visit`. -/
theorem visit_unfold (e : Engine) (v : PyValue) :
    visit e v =
      Event.enter v ::
        match alGet (visitorsFor e.mro v.typeOf) Option.none with
        | some h =>
          if stopSignal e.defaultStop (h.fn v Option.none)
          then [Event.callNode h.id v.typeOf]
          else Event.callNode h.id v.typeOf :: dispatchShape e v
        | Option.none => dispatchShape e v := by
  conv_lhs => unfold visit

/-- Unfolding of `dispatchShape` on an object. -/
theorem dispatchShape_obj (e : Engine) (typ : Nat)
    (iF cF : List (String × PyValue)) :
    dispatchShape e (.obj typ iF cF)
      = visitFields e typ iF cF (sortKeys (iF.map Prod.fst)) := by
  conv_lhs => unfold dispatchShape

/-- Unfolding of `dispatchShape` on an enum member. -/
theorem dispatchShape_enum (e : Engine) (typ : Nat)
    (fields : List (String × PyValue)) :
    dispatchShape e (.enumMember typ fields)
      = [Event.leafVisit (.enumMember typ fields)] := by
  conv_lhs => unfold dispatchShape

/-- Unfolding of `dispatchShape` on a list. -/
theorem dispatchShape_list (e : Engine) (elems : List PyValue) :
    dispatchShape e (.list elems) = visitElems e elems := by
  conv_lhs => unfold dispatchShape

/-- Unfolding of `dispatchShape` on a dict. -/
theorem dispatchShape_dict (e : Engine) (entries : List (PyValue × PyValue)) :
    dispatchShape e (.dict entries) = visitVals e entries := by
  conv_lhs => unfold dispatchShape

/-- Unfolding of `dispatchShape` on a leaf. -/
theorem dispatchShape_leaf (e : Engine) (typ : Nat) (val : Int) :
    dispatchShape e (.leaf typ val) = [Event.leafVisit (.leaf typ val)] := by
  conv_lhs => unfold dispatchShape

/-- Unfolding of `visitFields` on the empty key list. -/
theorem visitFields_nil (e : Engine) (typ : Nat)
    (iF cF : List (String × PyValue)) :
    visitFields e typ iF cF [] = [] := by
  conv_lhs => unfold visitFields

/-- Unfolding of `visitFields` on a non-empty key list. -/
theorem visitFields_cons (e : Engine) (typ : Nat)
    (iF cF : List (String × PyValue)) (k : String) (rest : List String) :
    visitFields e typ iF cF (k :: rest)
      = visitField e typ iF cF k ++ visitFields e typ iF cF rest := by
  conv_lhs => unfold visitFields

/-- Unfolding of `visitElems`. -/
theorem visitElems_nil (e : Engine) : visitElems e [] = [] := by
  conv_lhs => unfold visitElems

/-- Unfolding of `visitElems` on a non-empty list. -/
theorem visitElems_cons (e : Engine) (x : PyValue) (xs : List PyValue) :
    visitElems e (x :: xs) = visit e x ++ visitElems e xs := by
  conv_lhs => unfold visitElems

/-- Unfolding of `visitVals`. -/
theorem visitVals_nil (e : Engine) : visitVals e [] = [] := by
  conv_lhs => unfold visitVals

/-- Unfolding of `visitVals` on a non-empty dict. -/
theorem visitVals_cons (e : Engine) (kv : PyValue × PyValue)
    (rest : List (PyValue × PyValue)) :
    visitVals e (kv :: rest) = visit e kv.2 ++ visitVals e rest := by
  conv_lhs => unfold visitVals

/-- Unfolding of `visitField` for a private key: the loop body skips it. -/
theorem visitField_private (e : Engine) (typ : Nat)
    (iF cF : List (String × PyValue)) (k : String)
    (hk : isPrivateKey k = true) :
    visitField e typ iF cF k = [] := by
  unfold visitField
  simp [hk]

/-- Unfolding of `visitField` for a public key whose `getattr` succeeds
(as it always does for keys taken from `vars(obj)`). -/
theorem visitField_found (e : Engine) (typ : Nat)
    (iF cF : List (String × PyValue)) (k : String) (value : PyValue)
    (hk : isPrivateKey k = false) (hv : getattrField iF cF k = some value) :
    visitField e typ iF cF k =
      match (alGet (visitorsFor e.mro typ) (some k)).orElse
          (fun _ => alGet (visitorsFor e.mro typ) (some "*")) with
      | some h =>
        if stopSignal e.defaultStop (h.fn (.obj typ iF cF) (some (k, value)))
        then [Event.callAttr h.id k]
        else Event.callAttr h.id k :: visit e value
      | Option.none => visit e value := by
  unfold visitField
  simp only [hk, Bool.false_eq_true, if_false]
  split
  · rename_i heq
    rw [heq] at hv
    exact absurd hv (by simp)
  · rename_i value' heq
    rw [heq] at hv
    cases hv
    rfl

/-- When a frame with its own `_visitors` table sits in the list, `getattr`
finds some table: either one owned by an earlier frame, or that one. -/
theorem getattrVisitors_append_cons (pre post : List ClassFrame)
    (a : ClassFrame) (tblA : VTable) (ha : a.visitors = some tblA) :
    ∃ tbl, getattrVisitors (pre ++ a :: post) = some tbl ∧
      ((∃ f ∈ pre, f.visitors = some tbl) ∨ tbl = tblA) := by
  induction pre with
  | nil => exact ⟨tblA, by simp [getattrVisitors, ha], Or.inr rfl⟩
  | cons f pre' ih =>
    cases hf : f.visitors with
    | some t =>
      exact ⟨t, by simp [getattrVisitors, hf],
        Or.inl ⟨f, List.mem_cons_self f pre', hf⟩⟩
    | none =>
      obtain ⟨tbl, h1, h2⟩ := ih
      refine ⟨tbl, by simp [getattrVisitors, hf, h1], ?_⟩
      rcases h2 with ⟨g, hg, hgt⟩ | h2
      · exact Or.inl ⟨g, List.mem_cons_of_mem f hg, hgt⟩
      · exact Or.inr h2

/-- Any table `getattr` returns is owned by some frame in the list. -/
theorem getattrVisitors_mem :
    ∀ (l : List ClassFrame) (tbl : VTable),
      getattrVisitors l = some tbl → ∃ f ∈ l, f.visitors = some tbl := by
  intro l
  induction l with
  | nil => intro tbl h; simp [getattrVisitors] at h
  | cons c rest ih =>
    intro tbl h
    cases hc : c.visitors with
    | some t =>
      simp [getattrVisitors, hc] at h
      exact ⟨c, List.mem_cons_self c rest, by rw [hc, h]⟩
    | none =>
      simp [getattrVisitors, hc] at h
      obtain ⟨f, hf, hft⟩ := ih tbl h
      exact ⟨f, List.mem_cons_of_mem c hf, hft⟩

/-- C3: resolution walks the engine's MRO from most-derived to
least-derived and returns the first table entry found for the node's exact
runtime type: if an ancestor class `a` has an entry for type `T` and no
frame before `a` in the MRO has one, resolution returns `a`'s entry; if no
frame at all has an entry for `T`, resolution returns the empty handler set
(not an error); and whenever resolution yields a whole-node handler, `visit`
invokes it. -/
theorem claim_C3 :
    (∀ (pre post : List ClassFrame) (a : ClassFrame) (tblA : VTable)
        (m : AttrTable) (T : Nat),
      a.visitors = some tblA → alGet tblA T = some m →
      (∀ f ∈ pre, ∀ t, f.visitors = some t → alGet t T = Option.none) →
      visitorsFor (pre ++ a :: post) T = m)
    ∧ (∀ (mro : List ClassFrame) (T : Nat),
      (∀ f ∈ mro, ∀ t, f.visitors = some t → alGet t T = Option.none) →
      visitorsFor mro T = [])
    ∧ (∀ (e : Engine) (v : PyValue) (h : Handler),
      alGet (visitorsFor e.mro v.typeOf) Option.none = some h →
      Event.callNode h.id v.typeOf ∈ visit e v) := by
  refine ⟨?_, ?_, ?_⟩
  · intro pre post a tblA m T ha hm hclean
    induction pre with
    | nil => simp [visitorsFor, getattrVisitors, ha, hm]
    | cons f pre' ih =>
      have ih' := ih fun g hg => hclean g (List.mem_cons_of_mem f hg)
      cases hf : f.visitors with
      | some t =>
        have ht := hclean f (List.mem_cons_self f pre') t hf
        simpa [visitorsFor, getattrVisitors, hf, ht] using ih'
      | none =>
        obtain ⟨tbl, h1, h2⟩ := getattrVisitors_append_cons pre' post a tblA ha
        have hga : getattrVisitors (f :: (pre' ++ a :: post)) = some tbl := by
          simp [getattrVisitors, hf, h1]
        cases halg : alGet tbl T with
        | some x =>
          have hx : x = m := by
            rcases h2 with ⟨g, hg, hgt⟩ | h2
            · have := hclean g (List.mem_cons_of_mem f hg) tbl hgt
              rw [this] at halg
              cases halg
            · rw [h2, hm] at halg
              cases halg
              rfl
          simp [visitorsFor, hga, halg, hx]
        | none =>
          simpa [visitorsFor, hga, halg] using ih'
  · intro mro T hclean
    induction mro with
    | nil => rfl
    | cons c rest ih =>
      cases hga : getattrVisitors (c :: rest) with
      | none => simp [visitorsFor, hga]
      | some tbl =>
        obtain ⟨f, hf, hft⟩ := getattrVisitors_mem _ _ hga
        have hnone := hclean f hf tbl hft
        have ih' := ih fun g hg => hclean g (List.mem_cons_of_mem c hg)
        simpa [visitorsFor, hga, hnone] using ih'
  · intro e v h hres
    rw [visit_unfold, hres]
    cases hst : stopSignal e.defaultStop (h.fn v Option.none) <;> simp [hst]

/-- C3 witness: through the subclass engine `engB` (which registered
nothing of its own), resolution for type 10 finds the ancestor's entry, the
ancestor's handler is invoked on a value of type 10, and resolution for the
unregistered type 99 yields the empty handler set. -/
theorem claim_C3_witness :
    visitorsFor ([⟨Option.none⟩] ++ ⟨some tblW⟩ :: [⟨Option.none⟩]) 10 =
      [(Option.none, hFalse)]
    ∧ Event.callNode 1 10 ∈ visit engB (.leaf 10 0)
    ∧ visitorsFor engW.mro 99 = [] := by
  refine ⟨?_, ?_, ?_⟩
  · exact claim_C3.1 [⟨Option.none⟩] [⟨Option.none⟩] ⟨some tblW⟩ tblW
      [(Option.none, hFalse)] 10 rfl rfl
      (by
        intro f hf t ht
        simp at hf
        rw [hf] at ht
        cases ht)
  · exact claim_C3.2.2 engB (.leaf 10 0) hFalse rfl
  · exact claim_C3.2.1 engW.mro 99
      (by
        intro f hf t ht
        simp [engW] at hf
        rcases hf with hf | hf <;> rw [hf] at ht
        · cases ht
          rfl
        · cases ht)

/-- C1: whenever a registered whole-node handler returns the explicit stop
signal `False`, `visit` returns immediately after the handler call, without
dispatching to object/sequence/mapping/leaf traversal (the trace contains no
further events, so no sub-element is ever visited); and whenever the field
handler resolved for a field of a record-shaped node returns `False`, the
loop body for that field produces only the handler-call event and never
recurses into the field's value. -/
theorem claim_C1 :
    (∀ (e : Engine) (v : PyValue) (h : Handler),
      alGet (visitorsFor e.mro v.typeOf) Option.none = some h →
      h.fn v Option.none = PyRet.bool false →
      visit e v = [Event.enter v, Event.callNode h.id v.typeOf])
    ∧ (∀ (e : Engine) (typ : Nat) (iF cF : List (String × PyValue))
        (k : String) (value : PyValue) (h : Handler),
      isPrivateKey k = false →
      getattrField iF cF k = some value →
      (alGet (visitorsFor e.mro typ) (some k)).orElse
          (fun _ => alGet (visitorsFor e.mro typ) (some "*")) = some h →
      h.fn (.obj typ iF cF) (some (k, value)) = PyRet.bool false →
      visitField e typ iF cF k = [Event.callAttr h.id k]) := by
  constructor
  · intro e v h hres hret
    rw [visit_unfold, hres]
    simp [stopSignal, pyEqFalse, hret]
  · intro e typ iF cF k value h hk hv hres hret
    rw [visitField_found e typ iF cF k value hk hv, hres]
    simp [stopSignal, pyEqFalse, hret]

/-- C1 witness: a whole-node `False` handler stops traversal of an object
that has a field, and a `False` field handler stops recursion into that
field's value. -/
theorem claim_C1_witness :
    visit engW (.obj 10 [("a", .leaf 2 7)] []) =
      [Event.enter (.obj 10 [("a", .leaf 2 7)] []), Event.callNode 1 10]
    ∧ visitField engW 11 [("x", .list [.leaf 2 8])] [] "x" =
      [Event.callAttr 1 "x"] :=
  ⟨claim_C1.1 engW (.obj 10 [("a", .leaf 2 7)] []) hFalse rfl rfl,
   claim_C1.2 engW 11 [("x", .list [.leaf 2 8])] [] "x" (.list [.leaf 2 8])
     hFalse rfl rfl rfl rfl⟩

/-- C2: whenever a handler (whole-node or field-specific) returns `None`,
default traversal/recursion for that node or field happens exactly when the
engine's `defaultStop` flag is `False`: the trace continues with the shape
dispatch (resp. the recursive visit of the field value) if the flag is
`False`, and stops right after the handler call if it is `True`. -/
theorem claim_C2 :
    (∀ (e : Engine) (v : PyValue) (h : Handler),
      alGet (visitorsFor e.mro v.typeOf) Option.none = some h →
      h.fn v Option.none = PyRet.none →
      visit e v = [Event.enter v, Event.callNode h.id v.typeOf]
        ++ if e.defaultStop then [] else dispatchShape e v)
    ∧ (∀ (e : Engine) (typ : Nat) (iF cF : List (String × PyValue))
        (k : String) (value : PyValue) (h : Handler),
      isPrivateKey k = false →
      getattrField iF cF k = some value →
      (alGet (visitorsFor e.mro typ) (some k)).orElse
          (fun _ => alGet (visitorsFor e.mro typ) (some "*")) = some h →
      h.fn (.obj typ iF cF) (some (k, value)) = PyRet.none →
      visitField e typ iF cF k = Event.callAttr h.id k ::
        if e.defaultStop then [] else visit e value) := by
  constructor
  · intro e v h hres hret
    rw [visit_unfold, hres]
    cases hds : e.defaultStop <;> simp [stopSignal, pyEqFalse, hds, hret]
  · intro e typ iF cF k value h hk hv hres hret
    rw [visitField_found e typ iF cF k value hk hv, hres]
    cases hds : e.defaultStop <;> simp [stopSignal, pyEqFalse, hds, hret]

/-- C2 witness: with a `None`-returning whole-node handler, the engine with
`defaultStop = False` goes on to the shape dispatch, and the engine with
`defaultStop = True` stops after the handler call; likewise for a
`None`-returning field handler. -/
theorem claim_C2_witness :
    (visit engW (.leaf 12 0) =
      [Event.enter (.leaf 12 0), Event.callNode 2 12]
        ++ dispatchShape engW (.leaf 12 0))
    ∧ (visit engWs (.leaf 12 0) =
      [Event.enter (.leaf 12 0), Event.callNode 2 12]) :=
  ⟨claim_C2.1 engW (.leaf 12 0) hNone rfl rfl,
   claim_C2.1 engWs (.leaf 12 0) hNone rfl rfl⟩

/-- C9: the stop test is `ret == False`, Python value equality rather than
identity, so every return value that compares equal to `False` — the integer
`0` and the float `0.0` included — suppresses default traversal for the node
or field exactly like `False` itself, while `None` (and nonzero numbers) do
not compare equal to `False`. -/
theorem claim_C9 :
    (∀ (e : Engine) (v : PyValue) (h : Handler),
      alGet (visitorsFor e.mro v.typeOf) Option.none = some h →
      pyEqFalse (h.fn v Option.none) = true →
      visit e v = [Event.enter v, Event.callNode h.id v.typeOf])
    ∧ (∀ (e : Engine) (typ : Nat) (iF cF : List (String × PyValue))
        (k : String) (value : PyValue) (h : Handler),
      isPrivateKey k = false →
      getattrField iF cF k = some value →
      (alGet (visitorsFor e.mro typ) (some k)).orElse
          (fun _ => alGet (visitorsFor e.mro typ) (some "*")) = some h →
      pyEqFalse (h.fn (.obj typ iF cF) (some (k, value))) = true →
      visitField e typ iF cF k = [Event.callAttr h.id k])
    ∧ pyEqFalse (PyRet.int 0) = true
    ∧ pyEqFalse (PyRet.float 0) = true
    ∧ pyEqFalse (PyRet.bool false) = true
    ∧ pyEqFalse PyRet.none = false
    ∧ pyEqFalse (PyRet.int 1) = false := by
  refine ⟨?_, ?_, rfl, by decide, rfl, rfl, by decide⟩
  · intro e v h hres hret
    rw [visit_unfold, hres]
    simp [stopSignal, hret]
  · intro e typ iF cF k value h hk hv hres hret
    rw [visitField_found e typ iF cF k value hk hv, hres]
    simp [stopSignal, hret]

/-- C9 witness: a handler returning the integer `0` and a handler returning
the float `0.0` both stop node traversal, and a wildcard field handler
returning `0` stops field recursion. -/
theorem claim_C9_witness :
    (visit engW (.leaf 13 0) = [Event.enter (.leaf 13 0), Event.callNode 3 13])
    ∧ (visit engW (.leaf 14 0) = [Event.enter (.leaf 14 0), Event.callNode 4 14])
    ∧ (visitField engW 15 [("y", .list [.leaf 2 9])] [] "y" =
      [Event.callAttr 3 "y"]) :=
  ⟨claim_C9.1 engW (.leaf 13 0) hZero rfl rfl,
   claim_C9.1 engW (.leaf 14 0) hFloatZero rfl (by decide),
   claim_C9.2.1 engW 15 [("y", .list [.leaf 2 9])] [] "y" (.list [.leaf 2 9])
     hZero rfl rfl rfl rfl⟩

/-- C4: registering the same (visited type, attribute selector) pair twice in
the same engine class's own table fails at once with the assertion message
naming the conflicting type and attribute, while a subclass — whose own
`_visitors` table starts out empty — may register the very same pair without
error. -/
theorem claim_C4 :
    (∀ (table : VTable) (T : Nat) (attr : Option String) (a0 : AttrTable)
        (h0 m : Handler),
      alGet table T = some a0 → alGet a0 attr = some h0 →
      registerPairs m table [(T, [attr])] = Except.error (dupMsg T attr))
    ∧ (∀ (T : Nat) (attr : Option String) (m : Handler),
      registerPairs m [] [(T, [attr])] = Except.ok [(T, [(attr, m)])]) := by
  constructor
  · intro table T attr a0 h0 m h1 h2
    simp [registerPairs, registerAttrList, h1, h2, Bind.bind, Except.bind]
  · intro T attr m
    simp [registerPairs, registerAttrList, alGet, alSet, Bind.bind, Except.bind]

/-- C4 witness: re-registering the pair (type 10, whole-node selector) on the
class owning `tblW` raises the duplicate assertion, while registering the
same pair in a subclass with a fresh table succeeds. -/
theorem claim_C4_witness :
    registerPairs hTrue tblW [(10, [Option.none])] =
      Except.error (dupMsg 10 Option.none)
    ∧ registerPairs hTrue [] [(10, [Option.none])] =
      Except.ok [(10, [(Option.none, hTrue)])] :=
  ⟨claim_C4.1 tblW 10 Option.none [(Option.none, hFalse)] hFalse hTrue rfl rfl,
   claim_C4.2 10 Option.none hTrue⟩

/-- C7: the diagnostic carrier `OpenTypeLibError` holds a message and an
optional location; its rendering is `"<location>: <message>"` whenever the
location is present and non-empty, and just `"<message>"` when the location
is `None` or the empty string. -/
theorem claim_C7 :
    (∀ (m loc : String), loc ≠ "" →
      OpenTypeLibError.str ⟨m, some loc⟩ = loc ++ ": " ++ m)
    ∧ (∀ m : String, OpenTypeLibError.str ⟨m, Option.none⟩ = m)
    ∧ (∀ m : String, OpenTypeLibError.str ⟨m, some ""⟩ = m) := by
  refine ⟨?_, ?_, ?_⟩
  · intro m loc hloc
    simp [OpenTypeLibError.str, pyTruthy, hloc]
  · intro m
    simp [OpenTypeLibError.str, pyTruthy]
  · intro m
    simp [OpenTypeLibError.str, pyTruthy]

/-- C7 witness: the spec's example — message `"bad glyph"` with location
`"3:4"` renders as `"3:4: bad glyph"`, and without a location as
`"bad glyph"`. -/
theorem claim_C7_witness :
    OpenTypeLibError.str ⟨"bad glyph", some "3:4"⟩ = "3:4: bad glyph"
    ∧ OpenTypeLibError.str ⟨"bad glyph", Option.none⟩ = "bad glyph" :=
  ⟨claim_C7.1 "bad glyph" "3:4" (by decide), claim_C7.2.1 "bad glyph"⟩

/-- `visitFields` is the concatenation, over exactly the non-private keys
in order, of the per-key loop bodies. -/
theorem visitFields_eq_flatMap (e : Engine) (typ : Nat)
    (iF cF : List (String × PyValue)) :
    ∀ keys : List String,
      visitFields e typ iF cF keys =
        (keys.filter fun k => !isPrivateKey k).flatMap (visitField e typ iF cF) := by
  intro keys
  induction keys with
  | nil => simp [visitFields_nil]
  | cons k rest ih =>
    rw [visitFields_cons]
    cases hk : isPrivateKey k with
    | true =>
      rw [visitField_private e typ iF cF k hk]
      simp [List.filter_cons, hk, ih]
    | false =>
      simp [List.filter_cons, hk, ih]

/-- `visitList` visits exactly the elements, in order. -/
theorem visitElems_eq_flatMap (e : Engine) :
    ∀ l : List PyValue, visitElems e l = l.flatMap (visit e) := by
  intro l
  induction l with
  | nil => simp [visitElems_nil]
  | cons x xs ih => rw [visitElems_cons]; simp [ih]

/-- `visitDict` visits exactly the values of the entries, in order; the
keys contribute nothing to the trace. -/
theorem visitVals_eq_flatMap (e : Engine) :
    ∀ l : List (PyValue × PyValue),
      visitVals e l = (l.map Prod.snd).flatMap (visit e) := by
  intro l
  induction l with
  | nil => simp [visitVals_nil]
  | cons kv rest ih => rw [visitVals_cons]; simp [ih]

/-- `sortKeys` output is sorted in lexicographic order. -/
theorem sortKeys_sorted (ks : List String) :
    List.Pairwise (fun a b : String => a ≤ b) (sortKeys ks) :=
  List.sorted_insertionSort _ ks

/-- `sortKeys` output is a permutation of its input. -/
theorem sortKeys_perm (ks : List String) : (sortKeys ks).Perm ks :=
  List.perm_insertionSort _ ks

/-- Lists of keys that are permutations of each other sort identically:
the enumeration order is independent of declaration order. -/
theorem sortKeys_congr (ks ks' : List String) (h : ks.Perm ks') :
    sortKeys ks = sortKeys ks' := by
  haveI : IsAntisymm String (fun a b : String => a ≤ b) :=
    ⟨fun _ _ => le_antisymm⟩
  exact List.eq_of_perm_of_sorted
    ((sortKeys_perm ks).trans (h.trans (sortKeys_perm ks').symm))
    (sortKeys_sorted ks) (sortKeys_sorted ks')

/-- A key of an association list is always found by `alGet`. -/
theorem alGet_isSome_of_mem_keys {κ α : Type} [BEq κ] [LawfulBEq κ] :
    ∀ (l : List (κ × α)) (k : κ), k ∈ l.map Prod.fst → (alGet l k).isSome := by
  intro l
  induction l with
  | nil => intro k h; simp at h
  | cons p rest ih =>
    intro k h
    obtain ⟨k', v'⟩ := p
    rw [List.map_cons, List.mem_cons] at h
    rcases h with h | h
    · simp [alGet, h]
    · by_cases hk : (k' == k) = true
      · simp [alGet, hk]
      · simpa [alGet, hk] using ih k h

/-- When a field handler is resolved for key `k`, the loop body calls it
and then recurses into the field value unless the handler signals stop. -/
theorem visitField_handler (e : Engine) (typ : Nat)
    (iF cF : List (String × PyValue)) (k : String) (value : PyValue)
    (h : Handler) (hk : isPrivateKey k = false)
    (hv : getattrField iF cF k = some value)
    (hres : (alGet (visitorsFor e.mro typ) (some k)).orElse
      (fun _ => alGet (visitorsFor e.mro typ) (some "*")) = some h) :
    visitField e typ iF cF k = Event.callAttr h.id k ::
      (if stopSignal e.defaultStop (h.fn (.obj typ iF cF) (some (k, value)))
       then [] else visit e value) := by
  rw [visitField_found e typ iF cF k value hk hv, hres]
  cases hst : stopSignal e.defaultStop (h.fn (.obj typ iF cF) (some (k, value))) <;>
    simp [hst]

/-- When no field handler is resolved for key `k`, the loop body is exactly
the recursive visit of the field value. -/
theorem visitField_nohandler (e : Engine) (typ : Nat)
    (iF cF : List (String × PyValue)) (k : String) (value : PyValue)
    (hk : isPrivateKey k = false) (hv : getattrField iF cF k = some value)
    (h1 : alGet (visitorsFor e.mro typ) (some k) = Option.none)
    (h2 : alGet (visitorsFor e.mro typ) (some "*") = Option.none) :
    visitField e typ iF cF k = visit e value := by
  rw [visitField_found e typ iF cF k value hk hv, h1, h2]
  simp [Option.orElse]

/-- C5: object traversal enumerates exactly the fields whose names do not
begin with the underscore prefix and visits them in lexicographic (sorted)
order of field name: the trace is the concatenation of the per-field loop
bodies over the sorted public keys, the enumeration order is sorted and is
a permutation of the public field names, and it is independent of the
declaration order of the fields. -/
theorem claim_C5 :
    (∀ (e : Engine) (typ : Nat) (iF cF : List (String × PyValue)),
      dispatchShape e (.obj typ iF cF) =
        ((sortKeys (iF.map Prod.fst)).filter fun k => !isPrivateKey k).flatMap
          (visitField e typ iF cF))
    ∧ (∀ ks : List String,
      List.Pairwise (fun a b : String => a ≤ b) (sortKeys ks))
    ∧ (∀ iF : List (String × PyValue),
      (sortKeys (iF.map Prod.fst)).Perm (iF.map Prod.fst))
    ∧ (∀ ks ks' : List String, ks.Perm ks' → sortKeys ks = sortKeys ks') := by
  refine ⟨?_, sortKeys_sorted, fun iF => sortKeys_perm _, sortKeys_congr⟩
  intro e typ iF cF
  rw [dispatchShape_obj, visitFields_eq_flatMap]

/-- C5 witness: two declaration orders of the same keys sort to the same
enumeration, and sorting the keys of a record with a private field is a
permutation of all its keys. -/
theorem claim_C5_witness :
    sortKeys ["b", "a"] = sortKeys ["a", "b"]
    ∧ (sortKeys (List.map Prod.fst
        [("b", PyValue.leaf 2 1), ("_p", PyValue.leaf 2 2),
         ("a", PyValue.leaf 2 3)])).Perm ["b", "_p", "a"] :=
  ⟨claim_C5.2.2.2 ["b", "a"] ["a", "b"] (by decide),
   claim_C5.2.2.1
     [("b", PyValue.leaf 2 1), ("_p", PyValue.leaf 2 2), ("a", PyValue.leaf 2 3)]⟩

/-- C6: `visit` classifies every value into exactly one shape and traverses
accordingly: a value with an attribute dictionary that is not an enum
member is traversed as a record over its sorted public fields; otherwise a
list is traversed by visiting each element in order; otherwise a dict is
traversed by visiting each value (never the keys) in iteration order; and
any other value — enum members included, despite their attribute
dictionaries — is passed to the leaf hook, which adds no further traversal. -/
theorem claim_C6 (e : Engine) :
    (∀ typ iF cF, dispatchShape e (.obj typ iF cF)
      = visitFields e typ iF cF (sortKeys (iF.map Prod.fst)))
    ∧ (∀ elems, dispatchShape e (.list elems) = elems.flatMap (visit e))
    ∧ (∀ entries, dispatchShape e (.dict entries)
      = (entries.map Prod.snd).flatMap (visit e))
    ∧ (∀ typ fields, dispatchShape e (.enumMember typ fields)
      = [Event.leafVisit (.enumMember typ fields)])
    ∧ (∀ typ val, dispatchShape e (.leaf typ val)
      = [Event.leafVisit (.leaf typ val)]) := by
  refine ⟨dispatchShape_obj e, ?_, ?_, dispatchShape_enum e, dispatchShape_leaf e⟩
  · intro elems
    rw [dispatchShape_list, visitElems_eq_flatMap]
  · intro entries
    rw [dispatchShape_dict, visitVals_eq_flatMap]

/-- C8: the handler applied to a field is chosen by precedence — the
field-specific handler registered under the exact field name for the node's
runtime type if one exists, else the wildcard `"*"` handler for that type
if one exists, else none, in which case the engine recurses into the field
value by default. -/
theorem claim_C8 :
    (∀ (e : Engine) (typ : Nat) (iF cF : List (String × PyValue))
        (k : String) (value : PyValue) (h : Handler),
      isPrivateKey k = false → getattrField iF cF k = some value →
      alGet (visitorsFor e.mro typ) (some k) = some h →
      visitField e typ iF cF k = Event.callAttr h.id k ::
        (if stopSignal e.defaultStop (h.fn (.obj typ iF cF) (some (k, value)))
         then [] else visit e value))
    ∧ (∀ (e : Engine) (typ : Nat) (iF cF : List (String × PyValue))
        (k : String) (value : PyValue) (h : Handler),
      isPrivateKey k = false → getattrField iF cF k = some value →
      alGet (visitorsFor e.mro typ) (some k) = Option.none →
      alGet (visitorsFor e.mro typ) (some "*") = some h →
      visitField e typ iF cF k = Event.callAttr h.id k ::
        (if stopSignal e.defaultStop (h.fn (.obj typ iF cF) (some (k, value)))
         then [] else visit e value))
    ∧ (∀ (e : Engine) (typ : Nat) (iF cF : List (String × PyValue))
        (k : String) (value : PyValue),
      isPrivateKey k = false → getattrField iF cF k = some value →
      alGet (visitorsFor e.mro typ) (some k) = Option.none →
      alGet (visitorsFor e.mro typ) (some "*") = Option.none →
      visitField e typ iF cF k = visit e value) := by
  refine ⟨?_, ?_, ?_⟩
  · intro e typ iF cF k value h hk hv hres
    exact visitField_handler e typ iF cF k value h hk hv (by rw [hres]; rfl)
  · intro e typ iF cF k value h hk hv h1 h2
    exact visitField_handler e typ iF cF k value h hk hv (by rw [h1, h2]; rfl)
  · intro e typ iF cF k value hk hv h1 h2
    exact visitField_nohandler e typ iF cF k value hk hv h1 h2

/-- C8 witness: the spec's scenario — an engine registering a handler only
for field `"x"` of type 11 invokes the custom handler for `x` and plain
recursion for `y`; and a wildcard handler fires for a field with no exact
entry. -/
theorem claim_C8_witness :
    visitField engW 11 [("x", .leaf 2 1), ("y", .leaf 2 2)] [] "x" =
      [Event.callAttr 1 "x"]
    ∧ visitField engW 11 [("x", .leaf 2 1), ("y", .leaf 2 2)] [] "y" =
      visit engW (.leaf 2 2)
    ∧ visitField engW 15 [("z", .leaf 2 9)] [] "z" = [Event.callAttr 3 "z"] :=
  ⟨claim_C8.1 engW 11 [("x", .leaf 2 1), ("y", .leaf 2 2)] [] "x" (.leaf 2 1)
     hFalse rfl rfl rfl,
   claim_C8.2.2 engW 11 [("x", .leaf 2 1), ("y", .leaf 2 2)] [] "y" (.leaf 2 2)
     rfl rfl rfl rfl,
   claim_C8.2.1 engW 15 [("z", .leaf 2 9)] [] "z" (.leaf 2 9) hZero
     rfl rfl rfl rfl⟩

/-- C10: object traversal enumerates only the instance attribute dictionary
(`vars(obj)`): the enumerated keys are the sorted keys of the instance
dictionary and each of them is an instance-dictionary key, `getattr`
prefers the instance dictionary over class attributes, and the value
recursed into for an instance key is the instance value — so class
attributes are never enumerated, dispatched to field handlers, or recursed
into, whatever their names. -/
theorem claim_C10 :
    (∀ (e : Engine) (typ : Nat) (iF cF : List (String × PyValue)),
      dispatchShape e (.obj typ iF cF)
        = visitFields e typ iF cF (sortKeys (iF.map Prod.fst)))
    ∧ (∀ (iF cF : List (String × PyValue)) (k : String) (v : PyValue),
      alGet iF k = some v → getattrField iF cF k = some v)
    ∧ (∀ (iF : List (String × PyValue)) (k : String),
      k ∈ sortKeys (iF.map Prod.fst) → (alGet iF k).isSome)
    ∧ (∀ (e : Engine) (typ : Nat) (iF cF : List (String × PyValue))
        (k : String) (v : PyValue),
      isPrivateKey k = false → alGet iF k = some v →
      alGet (visitorsFor e.mro typ) (some k) = Option.none →
      alGet (visitorsFor e.mro typ) (some "*") = Option.none →
      visitField e typ iF cF k = visit e v) := by
  refine ⟨?_, ?_, ?_, ?_⟩
  · intro e typ iF cF
    exact dispatchShape_obj e typ iF cF
  · intro iF cF k v h
    simp [getattrField, h]
  · intro iF k hk
    exact alGet_isSome_of_mem_keys iF k ((sortKeys_perm _).mem_iff.mp hk)
  · intro e typ iF cF k v hk halg h1 h2
    exact visitField_nohandler e typ iF cF k v hk
      (by simp [getattrField, halg]) h1 h2

/-- C10 witness: with the same public name in the instance dictionary and
on the class, `getattr` yields the instance value; an enumerated key of a
one-field record is an instance key; and traversal of an instance field
ignores the class attributes entirely. -/
theorem claim_C10_witness :
    getattrField [("a", .leaf 2 3)] [("a", .leaf 2 4)] "a" = some (.leaf 2 3)
    ∧ (alGet [("a", (PyValue.leaf 2 3))] "a").isSome
    ∧ visitField engW 50 [("a", .leaf 2 3)] [("c", .leaf 2 4)] "a" =
        visit engW (.leaf 2 3) :=
  ⟨claim_C10.2.1 [("a", .leaf 2 3)] [("a", .leaf 2 4)] "a" (.leaf 2 3) rfl,
   claim_C10.2.2.1 [("a", PyValue.leaf 2 3)] "a" (by decide),
   claim_C10.2.2.2 engW 50 [("a", .leaf 2 3)] [("c", .leaf 2 4)] "a"
     (.leaf 2 3) rfl rfl rfl rfl⟩

end FontToolsVisitor
